import Mathlib

/-!
# Verification of the Git branching simulator repository core

A shallow embedding of the repository state machine of `main.py`
(`GitCommit`, `GitBranch`, `GitRepository` and its operations
`create_commit`, `create_branch`, `checkout_branch`, `merge_branches`,
`get_commit_log`, `save_to_file`, `load_from_file`), together with
theorems settling the specification's claims about it.

Modelling conventions:

* Python `dict` (string keys, insertion ordered, unique keys) is an
  association list `List (String × α)`.  `dictGet` is `dict.get` /
  subscript lookup, `dictInsert` is `d[k] = v` (replaces the value in
  place when the key exists, appends otherwise).
* `datetime.datetime.now()` is nondeterministic; operations that read
  the clock take the current instant as an explicit `now : Nat`
  argument.  ISO-8601 serialization of an instant is a bijection, so
  the persisted timestamp is modelled as the instant itself; the
  `strftime` display format is an injective rendering of the instant,
  modelled by `formatTimestamp`.
* Random branch colors (`GitBranch._generate_color`) are modelled by
  passing the chosen color as an explicit argument.
* A Python method that can raise an exception on some inputs
  (`create_branch` raises `KeyError` when `current_branch` is not a
  key of `branches`; `merge_branches` raises `AttributeError` when the
  current branch is missing but the source exists; `load_from_file`
  raises `KeyError` when the document lacks a `head` key) is embedded
  as an `Option`-valued function, `none` being the raised exception.
* The `while` loop of `get_commit_log` is given explicit fuel; running
  out of fuel (`none`) models not having terminated within the budget.
-/

/-- Lookup in a Python dict modelled as an association list: the value
bound to the first occurrence of the key, if any. -/
def dictGet {α : Type} : List (String × α) → String → Option α
  | [], _ => none
  | p :: d, k => if p.1 = k then some p.2 else dictGet d k

/-- Python `d[k] = v`: replace the value in place when `k` is already a
key (keeping the entry's position), append a new entry otherwise. -/
def dictInsert {α : Type} (d : List (String × α)) (k : String) (v : α) :
    List (String × α) :=
  if (dictGet d k).isSome then
    d.map (fun p => if p.1 = k then (k, v) else p)
  else
    d ++ [(k, v)]

theorem dictGet_nil {α : Type} (k : String) :
    dictGet ([] : List (String × α)) k = none := rfl

theorem dictGet_append {α : Type} (d e : List (String × α)) (k : String) :
    dictGet (d ++ e) k =
      match dictGet d k with
      | some v => some v
      | none => dictGet e k := by
  induction d with
  | nil => simp [dictGet]
  | cons p d ih =>
      by_cases h : p.1 = k <;> simp [dictGet, h, ih]

theorem mem_keys_of_dictGet {α : Type} {d : List (String × α)} {k : String}
    {v : α} (h : dictGet d k = some v) : k ∈ d.map Prod.fst := by
  induction d with
  | nil => simp [dictGet] at h
  | cons p d ih =>
      by_cases hk : p.1 = k
      · simp [hk]
      · simp [dictGet, hk] at h
        simp [ih h]

theorem dictGet_map_replace_self {α : Type} (d : List (String × α))
    (k : String) (v : α) (hmem : (dictGet d k).isSome) :
    dictGet (d.map (fun p => if p.1 = k then (k, v) else p)) k = some v := by
  induction d with
  | nil => simp [dictGet] at hmem
  | cons p d ih =>
      by_cases hk : p.1 = k
      · simp [dictGet, hk]
      · simp [dictGet, hk] at hmem ⊢
        exact ih hmem

theorem dictGet_map_replace_ne {α : Type} (d : List (String × α))
    (k k' : String) (v : α) (hne : k' ≠ k) :
    dictGet (d.map (fun p => if p.1 = k then (k, v) else p)) k' =
      dictGet d k' := by
  induction d with
  | nil => simp [dictGet]
  | cons p d ih =>
      by_cases hk : p.1 = k
      · have : ¬ (k = k') := fun h => hne h.symm
        simp [dictGet, hk, this, ih]
      · by_cases hk' : p.1 = k' <;> simp [dictGet, hk, hk', hne, ih]

theorem dictGet_eq_none_iff_not_isSome {α : Type} (d : List (String × α))
    (k : String) : dictGet d k = none ↔ ¬ (dictGet d k).isSome := by
  cases h : dictGet d k <;> simp [h]

theorem dictGet_insert_self {α : Type} (d : List (String × α)) (k : String)
    (v : α) : dictGet (dictInsert d k v) k = some v := by
  by_cases hmem : (dictGet d k).isSome
  · simp [dictInsert, hmem, dictGet_map_replace_self d k v hmem]
  · have hnone : dictGet d k = none := by
      cases h : dictGet d k
      · rfl
      · exact absurd (by simp [h]) hmem
    simp [dictInsert, hmem, dictGet_append, hnone, dictGet]

theorem dictGet_insert_ne {α : Type} (d : List (String × α)) (k k' : String)
    (v : α) (hne : k' ≠ k) :
    dictGet (dictInsert d k v) k' = dictGet d k' := by
  by_cases hmem : (dictGet d k).isSome
  · simp [dictInsert, hmem, dictGet_map_replace_ne d k k' v hne]
  · have : ¬ (k = k') := fun h => hne h.symm
    simp [dictInsert, hmem, dictGet_append, dictGet, this]
    cases h : dictGet d k' <;> simp

theorem dictGet_insert_isSome {α : Type} (d : List (String × α))
    (k k' : String) (v : α) (h : (dictGet d k').isSome) :
    (dictGet (dictInsert d k v) k').isSome := by
  by_cases hk : k' = k
  · subst hk; simp [dictGet_insert_self]
  · simp [dictGet_insert_ne d k k' v hk, h]

/-- A commit of the simulator: `GitCommit.__init__` fields.  The
timestamp is the abstract instant at which the commit was created. -/
structure GitCommit where
  id : String
  message : String
  parent : Option String := none
  second_parent : Option String := none
  timestamp : Nat
deriving Repr, DecidableEq

/-- A branch of the simulator: `GitBranch.__init__` fields.  The color
is the (randomly chosen in the source, here explicitly passed)
display color. -/
structure GitBranch where
  name : String
  head : String
  color : String
deriving Repr, DecidableEq

/-- The repository state: `GitRepository` fields.  `head` is the extra
attribute that only `load_from_file` ever sets (`repo.head =
data['head']`); it is absent (`none`) on every normally constructed
repository and read by no operation. -/
structure GitRepository where
  commits : List (String × GitCommit)
  branches : List (String × GitBranch)
  current_branch : String
  head : Option String := none
deriving Repr, DecidableEq

/-- The single-quote character, used in the result messages of the
source (written via `Char.ofNat` to keep the embedding free of quote
literals). -/
def squote : String := String.singleton (Char.ofNat 39)

/-- `GitRepository.__init__` / `_initialize_repo`: one commit `C0`
("Initial commit", no parent), one branch `master` at `C0` with the
randomly drawn color `masterColor`, current branch `master`. -/
def GitRepository.new (masterColor : String) (t0 : Nat) : GitRepository :=
  { commits := [("C0",
      { id := "C0", message := "Initial commit", timestamp := t0 })],
    branches := [("master",
      { name := "master", head := "C0", color := masterColor })],
    current_branch := "master" }

/-- `GitRepository.create_commit`: returns the `(ok, text)` pair of the
source together with the updated repository state. -/
def create_commit (r : GitRepository) (now : Nat) (message : String) :
    Bool × String × GitRepository :=
  match dictGet r.branches r.current_branch with
  | none =>
      (false,
       "Error: Current branch " ++ squote ++ r.current_branch ++ squote
         ++ " not found", r)
  | some branch =>
      let parent_id := branch.head
      let commit_id := "C" ++ toString r.commits.length
      let new_commit : GitCommit :=
        { id := commit_id, message := message, parent := some parent_id,
          timestamp := now }
      (true, "Created commit " ++ commit_id ++ ": " ++ message,
       { r with
           commits := dictInsert r.commits commit_id new_commit,
           branches := dictInsert r.branches r.current_branch
             { branch with head := commit_id } })

/-- `GitRepository.create_branch`.  The source evaluates
`self.branches[self.current_branch].head` without a check, so when the
duplicate test passes but `current_branch` is not a key of `branches`
the method raises `KeyError`; that raised exception is the `none`
result. -/
def create_branch (r : GitRepository) (name color : String) :
    Option (Bool × String × GitRepository) :=
  if (dictGet r.branches name).isSome then
    some (false,
      "Error: Branch " ++ squote ++ name ++ squote ++ " already exists", r)
  else
    match dictGet r.branches r.current_branch with
    | none => none
    | some cb =>
        some (true,
          "Created branch " ++ squote ++ name ++ squote ++ " at commit "
            ++ cb.head,
          { r with
              branches := dictInsert r.branches name
                { name := name, head := cb.head, color := color } })

/-- `GitRepository.checkout_branch`. -/
def checkout_branch (r : GitRepository) (name : String) :
    Bool × String × GitRepository :=
  if (dictGet r.branches name).isSome then
    (true, "Switched to branch " ++ squote ++ name ++ squote,
     { r with current_branch := name })
  else
    (false, "Error: Branch " ++ squote ++ name ++ squote ++ " not found", r)

/-- `GitRepository.merge_branches`.  The source checks only the source
branch for existence and then compares `target_branch.head` with
`source_branch.head`; when the current branch does not resolve and the
source does, that comparison raises `AttributeError` on `None` — the
`none` result. -/
def merge_branches (r : GitRepository) (now : Nat)
    (source_branch_name : String) :
    Option (Bool × String × GitRepository) :=
  match dictGet r.branches source_branch_name with
  | none =>
      some (false,
        "Error: Branch " ++ squote ++ source_branch_name ++ squote
          ++ " not found", r)
  | some source_branch =>
      match dictGet r.branches r.current_branch with
      | none => none
      | some target_branch =>
          if target_branch.head = source_branch.head then
            some (true, "Already up to date. Nothing to merge.", r)
          else
            let commit_id := "C" ++ toString r.commits.length
            let message :=
              "Merge branch " ++ squote ++ source_branch_name ++ squote
                ++ " into " ++ r.current_branch
            let merge_commit : GitCommit :=
              { id := commit_id, message := message,
                parent := some target_branch.head,
                second_parent := some source_branch.head,
                timestamp := now }
            some (true,
              "Merged " ++ squote ++ source_branch_name ++ squote
                ++ " into " ++ squote ++ r.current_branch ++ squote,
              { r with
                  commits := dictInsert r.commits commit_id merge_commit,
                  branches := dictInsert r.branches r.current_branch
                    { target_branch with head := commit_id } })

/-- An injective rendering of an abstract instant, standing for the
`strftime` date formatting of the source. -/
def formatTimestamp (t : Nat) : String := toString t

/-- The four lines `get_commit_log` appends for one commit. -/
def commitRecord (c : GitCommit) : List String :=
  ["Commit: " ++ c.id, "Message: " ++ c.message,
   "Date: " ++ formatTimestamp c.timestamp, ""]

/-- The `while current_commit_id:` loop of `get_commit_log`, with
explicit fuel: `none` means the loop has not finished within `fuel`
iterations (the Python loop diverges on cyclic parent links).  The
loop exits when the id is `None` (here `none`) or the empty string
(falsy in Python), breaks silently when the id is not a key of
`commits`, and otherwise emits the commit and follows its first
parent. -/
def logLoop (commits : List (String × GitCommit)) :
    Nat → Option String → Option (List GitCommit)
  | 0, _ => none
  | _ + 1, none => some []
  | fuel + 1, some cid =>
      if cid = "" then some []
      else
        match dictGet commits cid with
        | none => some []
        | some c => (logLoop commits fuel c.parent).map (fun l => c :: l)

/-- The sequence of commit ids the log loop visits, truncated at
`fuel` steps.  Unlike `logLoop` it does not distinguish running out of
fuel from stopping; it is the declarative first-parent chain used to
state acyclicity and the traversal claims. -/
def chainIds (commits : List (String × GitCommit)) :
    Nat → Option String → List String
  | 0, _ => []
  | _ + 1, none => []
  | fuel + 1, some cid =>
      if cid = "" then []
      else
        match dictGet commits cid with
        | none => []
        | some c => cid :: chainIds commits fuel c.parent

/-- `"\n".join(result) if result else "No commits yet"` applied to the
records of the emitted commits. -/
def renderLog (cs : List GitCommit) : String :=
  let lines := (cs.map commitRecord).flatten
  if lines.isEmpty then "No commits yet"
  else String.intercalate "\n" lines

/-- `GitRepository.get_commit_log` with explicit fuel for its loop.
The embedding is a pure function of the state: the source method only
reads the repository, so state preservation holds by construction. -/
def get_commit_log (r : GitRepository) (fuel : Nat) : Option String :=
  match dictGet r.branches r.current_branch with
  | none => some "Error: Current branch not found"
  | some branch => (logLoop r.commits fuel (some branch.head)).map renderLog

/-- The persisted JSON document: top-level keys `commits`, `branches`,
`current_branch` and (possibly absent, hence `Option`) `head`.  Commit
and branch records are the field-for-field `to_dict` images, with the
ISO-8601 timestamp modelled as the instant it denotes. -/
structure SavedDoc where
  commits : List (String × GitCommit)
  branches : List (String × GitBranch)
  current_branch : String
  head : Option String := none
deriving Repr, DecidableEq

/-- `GitRepository.save_to_file`: serializes `commits`, `branches` and
`current_branch` — and writes no `head` key. -/
def save_to_file (r : GitRepository) : SavedDoc :=
  { commits := r.commits,
    branches := r.branches,
    current_branch := r.current_branch }

/-- `GitRepository.load_from_file`: rebuilds the commits and branches
from the document and sets `current_branch` (unvalidated) and `head`
from it.  `repo.head = data['head']` raises `KeyError` when the
document has no `head` key: the `none` result. -/
def load_from_file (doc : SavedDoc) : Option GitRepository :=
  match doc.head with
  | none => none
  | some h =>
      some { commits := doc.commits,
             branches := doc.branches,
             current_branch := doc.current_branch,
             head := some h }

/-! ## Characterization lemmas for the operations -/

theorem create_commit_of_missing (r : GitRepository) (now : Nat) (m : String)
    (h : dictGet r.branches r.current_branch = none) :
    create_commit r now m =
      (false,
       "Error: Current branch " ++ squote ++ r.current_branch ++ squote
         ++ " not found", r) := by
  simp [create_commit, h]

theorem create_commit_of_found (r : GitRepository) (now : Nat) (m : String)
    (b : GitBranch) (h : dictGet r.branches r.current_branch = some b) :
    create_commit r now m =
      (true,
       "Created commit " ++ ("C" ++ toString r.commits.length) ++ ": " ++ m,
       { r with
           commits := dictInsert r.commits ("C" ++ toString r.commits.length)
             { id := "C" ++ toString r.commits.length, message := m,
               parent := some b.head, timestamp := now },
           branches := dictInsert r.branches r.current_branch
             { b with head := "C" ++ toString r.commits.length } }) := by
  simp [create_commit, h]

theorem create_branch_of_dup (r : GitRepository) (name color : String)
    (h : (dictGet r.branches name).isSome) :
    create_branch r name color =
      some (false,
        "Error: Branch " ++ squote ++ name ++ squote ++ " already exists",
        r) := by
  simp [create_branch, h]

theorem create_branch_of_fresh (r : GitRepository) (name color : String)
    (cb : GitBranch) (hname : dictGet r.branches name = none)
    (hcb : dictGet r.branches r.current_branch = some cb) :
    create_branch r name color =
      some (true,
        "Created branch " ++ squote ++ name ++ squote ++ " at commit "
          ++ cb.head,
        { r with
            branches := dictInsert r.branches name
              { name := name, head := cb.head, color := color } }) := by
  simp [create_branch, hname, hcb]

theorem create_branch_raises (r : GitRepository) (name color : String)
    (hname : dictGet r.branches name = none)
    (hcb : dictGet r.branches r.current_branch = none) :
    create_branch r name color = none := by
  simp [create_branch, hname, hcb]

theorem checkout_branch_of_found (r : GitRepository) (name : String)
    (h : (dictGet r.branches name).isSome) :
    checkout_branch r name =
      (true, "Switched to branch " ++ squote ++ name ++ squote,
       { r with current_branch := name }) := by
  simp [checkout_branch, h]

theorem checkout_branch_of_missing (r : GitRepository) (name : String)
    (h : dictGet r.branches name = none) :
    checkout_branch r name =
      (false,
       "Error: Branch " ++ squote ++ name ++ squote ++ " not found", r) := by
  simp [checkout_branch, h]

theorem merge_branches_of_missing_source (r : GitRepository) (now : Nat)
    (src : String) (h : dictGet r.branches src = none) :
    merge_branches r now src =
      some (false,
        "Error: Branch " ++ squote ++ src ++ squote ++ " not found", r) := by
  simp [merge_branches, h]

theorem merge_branches_raises (r : GitRepository) (now : Nat) (src : String)
    (sb : GitBranch) (hsrc : dictGet r.branches src = some sb)
    (htgt : dictGet r.branches r.current_branch = none) :
    merge_branches r now src = none := by
  simp [merge_branches, hsrc, htgt]

theorem merge_branches_of_up_to_date (r : GitRepository) (now : Nat)
    (src : String) (sb tb : GitBranch)
    (hsrc : dictGet r.branches src = some sb)
    (htgt : dictGet r.branches r.current_branch = some tb)
    (hhead : tb.head = sb.head) :
    merge_branches r now src =
      some (true, "Already up to date. Nothing to merge.", r) := by
  simp [merge_branches, hsrc, htgt, hhead]

theorem merge_branches_of_diverged (r : GitRepository) (now : Nat)
    (src : String) (sb tb : GitBranch)
    (hsrc : dictGet r.branches src = some sb)
    (htgt : dictGet r.branches r.current_branch = some tb)
    (hhead : tb.head ≠ sb.head) :
    merge_branches r now src =
      some (true,
        "Merged " ++ squote ++ src ++ squote ++ " into " ++ squote
          ++ r.current_branch ++ squote,
        { r with
            commits := dictInsert r.commits
              ("C" ++ toString r.commits.length)
              { id := "C" ++ toString r.commits.length,
                message := "Merge branch " ++ squote ++ src ++ squote
                  ++ " into " ++ r.current_branch,
                parent := some tb.head, second_parent := some sb.head,
                timestamp := now },
            branches := dictInsert r.branches r.current_branch
              { tb with head := "C" ++ toString r.commits.length } }) := by
  simp [merge_branches, hsrc, htgt, hhead]

theorem get_commit_log_of_missing (r : GitRepository) (fuel : Nat)
    (h : dictGet r.branches r.current_branch = none) :
    get_commit_log r fuel = some "Error: Current branch not found" := by
  simp [get_commit_log, h]

/-! ## Reachable states and their invariants -/

/-- Repository states reachable from a freshly constructed repository
through the in-memory operations (`create_commit`, `create_branch`,
`checkout_branch`, `merge_branches`), the color and clock arguments
being arbitrary.  An `Option`-valued operation contributes a step only
when it returns normally. -/
inductive Reachable : GitRepository → Prop where
  | new : ∀ c t0, Reachable (GitRepository.new c t0)
  | commit : ∀ r now m, Reachable r → Reachable (create_commit r now m).2.2
  | branch : ∀ r name color res, Reachable r →
      create_branch r name color = some res → Reachable res.2.2
  | checkout : ∀ r name, Reachable r →
      Reachable (checkout_branch r name).2.2
  | merge : ∀ r now src res, Reachable r →
      merge_branches r now src = some res → Reachable res.2.2

theorem reachable_current_isSome (r : GitRepository) (h : Reachable r) :
    (dictGet r.branches r.current_branch).isSome := by
  induction h with
  | new c t0 => simp [GitRepository.new, dictGet]
  | commit r now m hr ih =>
      cases hb : dictGet r.branches r.current_branch with
      | none => rw [create_commit_of_missing r now m hb]; exact ih
      | some b =>
          rw [create_commit_of_found r now m b hb]
          simp [dictGet_insert_self]
  | branch r name color res hr heq ih =>
      cases hname : dictGet r.branches name with
      | some v =>
          rw [create_branch_of_dup r name color (by simp [hname])] at heq
          injection heq with h2
          subst h2
          exact ih
      | none =>
          cases hcb : dictGet r.branches r.current_branch with
          | none =>
              rw [create_branch_raises r name color hname hcb] at heq
              cases heq
          | some cb =>
              rw [create_branch_of_fresh r name color cb hname hcb] at heq
              injection heq with h2
              subst h2
              have hne : r.current_branch ≠ name := by
                intro hx
                rw [hx, hname] at hcb
                cases hcb
              simpa [dictGet_insert_ne r.branches name r.current_branch _ hne]
                using ih
  | checkout r name hr ih =>
      cases hname : dictGet r.branches name with
      | none => rw [checkout_branch_of_missing r name hname]; exact ih
      | some b =>
          rw [checkout_branch_of_found r name (by simp [hname])]
          simp [hname]
  | merge r now src res hr heq ih =>
      cases hsrc : dictGet r.branches src with
      | none =>
          rw [merge_branches_of_missing_source r now src hsrc] at heq
          injection heq with h2
          subst h2
          exact ih
      | some sb =>
          cases htgt : dictGet r.branches r.current_branch with
          | none =>
              rw [merge_branches_raises r now src sb hsrc htgt] at heq
              cases heq
          | some tb =>
              by_cases hh : tb.head = sb.head
              · rw [merge_branches_of_up_to_date r now src sb tb hsrc htgt hh]
                  at heq
                injection heq with h2
                subst h2
                exact ih
              · rw [merge_branches_of_diverged r now src sb tb hsrc htgt hh]
                  at heq
                injection heq with h2
                subst h2
                simp [dictGet_insert_self]

theorem reachable_heads_exist (r : GitRepository) (h : Reachable r) :
    ∀ n b, dictGet r.branches n = some b →
      (dictGet r.commits b.head).isSome := by
  induction h with
  | new c t0 =>
      intro n b hb
      simp only [GitRepository.new, dictGet] at hb ⊢
      split at hb
      · injection hb with h2
        subst h2
        simp
      · cases hb
  | commit r now m hr ih =>
      cases hb : dictGet r.branches r.current_branch with
      | none =>
          rw [create_commit_of_missing r now m hb]
          exact ih
      | some b0 =>
          rw [create_commit_of_found r now m b0 hb]
          intro n b hn
          by_cases hcur : n = r.current_branch
          · subst hcur
            rw [dictGet_insert_self] at hn
            injection hn with h2
            subst h2
            simp [dictGet_insert_self]
          · rw [dictGet_insert_ne _ _ _ _ hcur] at hn
            exact dictGet_insert_isSome _ _ _ _ (ih n b hn)
  | branch r name color res hr heq ih =>
      cases hname : dictGet r.branches name with
      | some v =>
          rw [create_branch_of_dup r name color (by simp [hname])] at heq
          injection heq with h2
          subst h2
          exact ih
      | none =>
          cases hcb : dictGet r.branches r.current_branch with
          | none =>
              rw [create_branch_raises r name color hname hcb] at heq
              cases heq
          | some cb =>
              rw [create_branch_of_fresh r name color cb hname hcb] at heq
              injection heq with h2
              subst h2
              intro n b hn
              by_cases hn' : n = name
              · subst hn'
                rw [dictGet_insert_self] at hn
                injection hn with h2
                subst h2
                exact ih r.current_branch cb hcb
              · rw [dictGet_insert_ne _ _ _ _ hn'] at hn
                exact ih n b hn
  | checkout r name hr ih =>
      cases hname : dictGet r.branches name with
      | none => rw [checkout_branch_of_missing r name hname]; exact ih
      | some b =>
          rw [checkout_branch_of_found r name (by simp [hname])]
          exact ih
  | merge r now src res hr heq ih =>
      cases hsrc : dictGet r.branches src with
      | none =>
          rw [merge_branches_of_missing_source r now src hsrc] at heq
          injection heq with h2
          subst h2
          exact ih
      | some sb =>
          cases htgt : dictGet r.branches r.current_branch with
          | none =>
              rw [merge_branches_raises r now src sb hsrc htgt] at heq
              cases heq
          | some tb =>
              by_cases hh : tb.head = sb.head
              · rw [merge_branches_of_up_to_date r now src sb tb hsrc htgt hh]
                  at heq
                injection heq with h2
                subst h2
                exact ih
              · rw [merge_branches_of_diverged r now src sb tb hsrc htgt hh]
                  at heq
                injection heq with h2
                subst h2
                intro n b hn
                by_cases hcur : n = r.current_branch
                · subst hcur
                  rw [dictGet_insert_self] at hn
                  injection hn with h2
                  subst h2
                  simp [dictGet_insert_self]
                · rw [dictGet_insert_ne _ _ _ _ hcur] at hn
                  exact dictGet_insert_isSome _ _ _ _ (ih n b hn)

/-! ## Log traversal: termination and shape -/

theorem logLoop_isSome_or_chain_saturated
    (commits : List (String × GitCommit)) :
    ∀ (fuel : Nat) (cur : Option String),
      (logLoop commits fuel cur).isSome ∨
        (chainIds commits fuel cur).length = fuel := by
  intro fuel
  induction fuel with
  | zero => intro cur; right; rfl
  | succ fuel ih =>
      intro cur
      cases cur with
      | none => left; simp [logLoop]
      | some cid =>
          by_cases hempty : cid = ""
          · left; simp [logLoop, hempty]
          · cases hc : dictGet commits cid with
            | none => left; simp [logLoop, hempty, hc]
            | some c =>
                rcases ih c.parent with h | h
                · rcases Option.isSome_iff_exists.mp h with ⟨l, hl⟩
                  left
                  simp [logLoop, hempty, hc, hl]
                · right
                  simp [chainIds, hempty, hc, h]

theorem chainIds_cons (commits : List (String × GitCommit)) (fuel : Nat)
    (cid : String) (c : GitCommit) (hempty : cid ≠ "")
    (hc : dictGet commits cid = some c) :
    chainIds commits (fuel + 1) (some cid) =
      cid :: chainIds commits fuel c.parent := by
  simp [chainIds, hempty, hc]

theorem chainIds_subset_keys (commits : List (String × GitCommit)) :
    ∀ (fuel : Nat) (cur : Option String) (x : String),
      x ∈ chainIds commits fuel cur → x ∈ commits.map Prod.fst := by
  intro fuel
  induction fuel with
  | zero => intro cur x hx; cases hx
  | succ fuel ih =>
      intro cur x hx
      cases cur with
      | none => cases hx
      | some cid =>
          by_cases hempty : cid = ""
          · simp [chainIds, hempty] at hx
          · cases hc : dictGet commits cid with
            | none => simp [chainIds, hempty, hc] at hx
            | some c =>
                rw [chainIds_cons commits fuel cid c hempty hc] at hx
                rcases List.mem_cons.mp hx with h1 | h1
                · subst h1; exact mem_keys_of_dictGet hc
                · exact ih c.parent x h1

theorem logLoop_isSome_of_nodup (commits : List (String × GitCommit))
    (cur : Option String)
    (h : (chainIds commits (commits.length + 1) cur).Nodup) :
    (logLoop commits (commits.length + 1) cur).isSome := by
  rcases logLoop_isSome_or_chain_saturated commits (commits.length + 1) cur
    with hs | hlen
  · exact hs
  · exfalso
    have hsub : chainIds commits (commits.length + 1) cur ⊆
        commits.map Prod.fst :=
      fun x hx => chainIds_subset_keys commits (commits.length + 1) cur x hx
    have hle := (h.subperm hsub).length_le
    rw [hlen, List.length_map] at hle
    omega

theorem logLoop_eq_filterMap (commits : List (String × GitCommit)) :
    ∀ (fuel : Nat) (cur : Option String) (cs : List GitCommit),
      logLoop commits fuel cur = some cs →
      cs = (chainIds commits fuel cur).filterMap
        (fun k => dictGet commits k) := by
  intro fuel
  induction fuel with
  | zero => intro cur cs h; cases h
  | succ fuel ih =>
      intro cur cs h
      cases cur with
      | none =>
          simp [logLoop] at h
          simp [chainIds, ← h]
      | some cid =>
          by_cases hempty : cid = ""
          · simp [logLoop, hempty] at h
            simp [chainIds, hempty, ← h]
          · cases hc : dictGet commits cid with
            | none =>
                simp [logLoop, hempty, hc] at h
                simp [chainIds, hempty, hc, ← h]
            | some c =>
                simp only [logLoop, hempty, if_neg, hc] at h
                cases hrec : logLoop commits fuel c.parent with
                | none => rw [hrec] at h; cases h
                | some cs' =>
                    rw [hrec] at h
                    injection h with h2
                    subst h2
                    simp [chainIds, hempty, hc, List.filterMap_cons,
                      ih c.parent cs' hrec]

theorem chainIds_head_eq (commits : List (String × GitCommit))
    (fuel : Nat) (k x : String) (rest : List String)
    (h : chainIds commits fuel (some k) = x :: rest) : x = k := by
  cases fuel with
  | zero => cases h
  | succ fuel =>
      by_cases hempty : k = ""
      · simp [chainIds, hempty] at h
      · cases hc : dictGet commits k with
        | none => simp [chainIds, hempty, hc] at h
        | some c =>
            simp [chainIds, hempty, hc] at h
            exact h.1.symm

/-- Every consecutive pair of the visited id sequence is linked by a
first-parent edge: the walk never follows `second_parent`. -/
theorem chainIds_chain' (commits : List (String × GitCommit)) :
    ∀ (fuel : Nat) (cur : Option String),
      List.Chain'
        (fun a a' => ∃ c, dictGet commits a = some c ∧ c.parent = some a')
        (chainIds commits fuel cur) := by
  intro fuel
  induction fuel with
  | zero => intro cur; simp [chainIds]
  | succ fuel ih =>
      intro cur
      cases cur with
      | none => simp [chainIds]
      | some cid =>
          by_cases hempty : cid = ""
          · simp [chainIds, hempty]
          · cases hc : dictGet commits cid with
            | none => simp [chainIds, hempty, hc]
            | some c =>
                simp only [chainIds, hempty, if_neg, hc]
                refine (ih c.parent).cons' ?_
                intro y hy
                cases htail : chainIds commits fuel c.parent with
                | nil => rw [htail] at hy; cases hy
                | cons z rest =>
                    rw [htail] at hy
                    simp at hy
                    subst hy
                    cases hp : c.parent with
                    | none => rw [hp] at htail; cases fuel <;> simp [chainIds] at htail
                    | some k =>
                        rw [hp] at htail
                        have := chainIds_head_eq commits fuel k z rest htail
                        subst this
                        exact ⟨c, hc, hp⟩

/-! ## Concrete states used by witnesses and counterexamples -/

/-- A fresh repository with a fixed master color and creation instant. -/
def repo0 : GitRepository := GitRepository.new "#2196f3" 0

/-- `repo0` after `create_branch "dev"`: both branches at `C0`. -/
def repoDev : GitRepository :=
  { commits := [("C0",
      { id := "C0", message := "Initial commit", timestamp := 0 })],
    branches := [("master",
      { name := "master", head := "C0", color := "#2196f3" }),
      ("dev", { name := "dev", head := "C0", color := "#4caf50" })],
    current_branch := "master" }

/-- `repoDev` after `create_commit "work"` on `master`: `master` at
`C1`, `dev` still at `C0`. -/
def repoDiv : GitRepository :=
  { commits := [("C0",
      { id := "C0", message := "Initial commit", timestamp := 0 }),
      ("C1", { id := "C1", message := "work", parent := some "C0",
               timestamp := 1 })],
    branches := [("master",
      { name := "master", head := "C1", color := "#2196f3" }),
      ("dev", { name := "dev", head := "C0", color := "#4caf50" })],
    current_branch := "master" }

/-- A state whose `current_branch` names no branch.  Such a state is
constructible in the source by `load_from_file` on a document that has
a `head` key but a dangling `current_branch`. -/
def repoGhost : GitRepository :=
  { commits := [("C0",
      { id := "C0", message := "Initial commit", timestamp := 0 })],
    branches := [("master",
      { name := "master", head := "C0", color := "#2196f3" })],
    current_branch := "ghost" }

theorem reachable_repo0 : Reachable repo0 := Reachable.new "#2196f3" 0

theorem reachable_repoDev : Reachable repoDev :=
  Reachable.branch repo0 "dev" "#4caf50"
    (true,
     "Created branch " ++ squote ++ "dev" ++ squote ++ " at commit C0",
     repoDev)
    reachable_repo0 (by decide)

theorem reachable_repoDiv : Reachable repoDiv := by
  have h := Reachable.commit repoDev 1 "work" reachable_repoDev
  have e : (create_commit repoDev 1 "work").2.2 = repoDiv := by decide
  rw [e] at h
  exact h

/-! ## The claims -/

/-- Claim C1: the save/load round-trip.  The serialized data is indeed
preserved exactly — `save_to_file` emits the repository's commits,
branches and `current_branch`, and writes no `head` key — but the load
path then reads that never-written `head` key, so `save_to_file`
followed by `load_from_file` raises `KeyError` on every repository
state and never yields a repository, let alone a structurally
identical one. -/
theorem C1_round_trip_hits_missing_head_key (r : GitRepository) :
    (save_to_file r).commits = r.commits ∧
    (save_to_file r).branches = r.branches ∧
    (save_to_file r).current_branch = r.current_branch ∧
    (save_to_file r).head = none ∧
    load_from_file (save_to_file r) = none :=
  ⟨rfl, rfl, rfl, rfl, rfl⟩

/-- Claim C4: a freshly constructed repository has exactly one commit,
`C0` with message "Initial commit" and no parents, exactly one branch,
`master` with head `C0`, and `master` as the current branch. -/
theorem C4_fresh_repository_shape (color : String) (t0 : Nat) :
    (GitRepository.new color t0).commits =
      [("C0", { id := "C0", message := "Initial commit", parent := none,
                second_parent := none, timestamp := t0 })] ∧
    (GitRepository.new color t0).branches =
      [("master", { name := "master", head := "C0", color := color })] ∧
    (GitRepository.new color t0).current_branch = "master" :=
  ⟨rfl, rfl, rfl⟩

/-- Claim C5: when the current branch resolves, `create_commit`
succeeds with the confirmation message, allocates the id `"C" +
commit count`, stores under it a commit carrying the message, the
current branch's head as sole parent (no second parent) and the
instant, advances the current branch's head to the new id, and leaves
every other commit, every other branch and the current branch name
unchanged. -/
theorem C5_create_commit_behavior (r : GitRepository) (now : Nat)
    (m : String) (b : GitBranch)
    (h : dictGet r.branches r.current_branch = some b) :
    (create_commit r now m).1 = true ∧
    (create_commit r now m).2.1 =
      "Created commit " ++ ("C" ++ toString r.commits.length) ++ ": "
        ++ m ∧
    dictGet (create_commit r now m).2.2.commits
        ("C" ++ toString r.commits.length) =
      some { id := "C" ++ toString r.commits.length, message := m,
             parent := some b.head, second_parent := none,
             timestamp := now } ∧
    dictGet (create_commit r now m).2.2.branches r.current_branch =
      some { b with head := "C" ++ toString r.commits.length } ∧
    (create_commit r now m).2.2.current_branch = r.current_branch ∧
    (∀ k, k ≠ "C" ++ toString r.commits.length →
      dictGet (create_commit r now m).2.2.commits k =
        dictGet r.commits k) ∧
    (∀ n, n ≠ r.current_branch →
      dictGet (create_commit r now m).2.2.branches n =
        dictGet r.branches n) := by
  rw [create_commit_of_found r now m b h]
  refine ⟨rfl, rfl, dictGet_insert_self _ _ _, dictGet_insert_self _ _ _,
    rfl, ?_, ?_⟩
  · intro k hk
    exact dictGet_insert_ne _ _ _ _ hk
  · intro n hn
    exact dictGet_insert_ne _ _ _ _ hn

/-- Witness for C5 at the fresh repository `repo0`: the new commit is
`C1` with parent `C0`, and `master`'s head becomes `C1`. -/
theorem C5_create_commit_behavior_witness :
    dictGet (create_commit repo0 1 "x").2.2.commits "C1" =
      some { id := "C1", message := "x", parent := some "C0",
             second_parent := none, timestamp := 1 } ∧
    dictGet (create_commit repo0 1 "x").2.2.branches "master" =
      some { name := "master", head := "C1", color := "#2196f3" } := by
  have h := C5_create_commit_behavior repo0 1 "x"
    { name := "master", head := "C0", color := "#2196f3" } (by decide)
  exact ⟨h.2.2.1, h.2.2.2.1⟩

/-- Claim C8: `create_branch` on an existing name fails with the
duplicate message and the state fully unchanged (so `branches` is
identical in cardinality and contents); on a fresh name — the claim's
"the current branch's head" presupposing, as in C2, that the current
branch resolves — it succeeds, inserts a branch at the current head,
and leaves every other branch, the commits and the current branch name
unchanged. -/
theorem C8_create_branch_behavior (r : GitRepository)
    (name color : String) (cb : GitBranch) :
    ((dictGet r.branches name).isSome →
      create_branch r name color =
        some (false,
          "Error: Branch " ++ squote ++ name ++ squote
            ++ " already exists", r)) ∧
    (dictGet r.branches name = none →
      dictGet r.branches r.current_branch = some cb →
      create_branch r name color =
        some (true,
          "Created branch " ++ squote ++ name ++ squote ++ " at commit "
            ++ cb.head,
          { r with
              branches := dictInsert r.branches name
                { name := name, head := cb.head, color := color } }) ∧
      dictGet (dictInsert r.branches name
          { name := name, head := cb.head, color := color }) name =
        some { name := name, head := cb.head, color := color } ∧
      (∀ n, n ≠ name →
        dictGet (dictInsert r.branches name
            { name := name, head := cb.head, color := color }) n =
          dictGet r.branches n)) := by
  constructor
  · intro hdup
    exact create_branch_of_dup r name color hdup
  · intro hname hcb
    refine ⟨create_branch_of_fresh r name color cb hname hcb,
      dictGet_insert_self _ _ _, ?_⟩
    intro n hn
    exact dictGet_insert_ne _ _ _ _ hn

/-- Witness for C8 on `repoDev`: creating `"dev"` again fails and
leaves the state unchanged; creating `"feature"` succeeds at the
current head `C0`. -/
theorem C8_create_branch_behavior_witness :
    create_branch repoDev "dev" "#9c27b0" =
      some (false,
        "Error: Branch " ++ squote ++ "dev" ++ squote
          ++ " already exists", repoDev) ∧
    create_branch repoDev "feature" "#9c27b0" =
      some (true,
        "Created branch " ++ squote ++ "feature" ++ squote
          ++ " at commit C0",
        { repoDev with
            branches := dictInsert repoDev.branches "feature"
              { name := "feature", head := "C0",
                color := "#9c27b0" } }) := by
  have h1 := (C8_create_branch_behavior repoDev "dev" "#9c27b0"
    { name := "master", head := "C0", color := "#2196f3" }).1 (by decide)
  have h2 := ((C8_create_branch_behavior repoDev "feature" "#9c27b0"
    { name := "master", head := "C0", color := "#2196f3" }).2
      (by decide) (by decide)).1
  exact ⟨h1, h2⟩

/-- Counterexample to claim C2 as stated: on a state whose
`current_branch` names no branch, `create_branch` with a fresh name
evaluates `branches[current_branch]` and raises `KeyError` (the `none`
result), and `merge_branches` with an existing source compares
`target_branch.head` on `None` and raises `AttributeError` — neither
returns a failure flag, contradicting the claim's "returns a failure
flag with a message rather than raising an exception". -/
theorem C2_counterexample :
    create_branch repoGhost "feature" "#4caf50" = none ∧
    merge_branches repoGhost 1 "master" = none := by
  exact ⟨by decide, by decide⟩

/-- Claim C2 as amended: the expected failure conditions the code does
handle — unknown branch name to `checkout_branch` or `merge_branches`,
duplicate name to `create_branch`, and a non-resolving current branch
in `create_commit` or `get_commit_log` — return a failure flag (or
error text) and leave the repository state unchanged; but a
non-resolving current branch makes `create_branch` (on a fresh name)
raise `KeyError` and `merge_branches` (on an existing source) raise
`AttributeError` instead of returning a flag. -/
theorem C2_expected_failures_flag_and_preserve :
    (∀ r name, dictGet r.branches name = none →
      checkout_branch r name =
        (false,
         "Error: Branch " ++ squote ++ name ++ squote ++ " not found",
         r)) ∧
    (∀ r now src, dictGet r.branches src = none →
      merge_branches r now src =
        some (false,
          "Error: Branch " ++ squote ++ src ++ squote ++ " not found",
          r)) ∧
    (∀ r name color, (dictGet r.branches name).isSome →
      create_branch r name color =
        some (false,
          "Error: Branch " ++ squote ++ name ++ squote
            ++ " already exists", r)) ∧
    (∀ r now m, dictGet r.branches r.current_branch = none →
      create_commit r now m =
        (false,
         "Error: Current branch " ++ squote ++ r.current_branch
           ++ squote ++ " not found", r)) ∧
    (∀ r fuel, dictGet r.branches r.current_branch = none →
      get_commit_log r fuel = some "Error: Current branch not found") ∧
    (∀ r name color, dictGet r.branches name = none →
      dictGet r.branches r.current_branch = none →
      create_branch r name color = none) ∧
    (∀ r now src sb, dictGet r.branches src = some sb →
      dictGet r.branches r.current_branch = none →
      merge_branches r now src = none) :=
  ⟨checkout_branch_of_missing, merge_branches_of_missing_source,
   create_branch_of_dup, create_commit_of_missing,
   get_commit_log_of_missing, create_branch_raises,
   merge_branches_raises⟩

/-- Witness for the amended C2 at concrete states: an unknown checkout
fails flagged and unchanged on `repoDev`; a broken current branch is
flagged by `create_commit` on `repoGhost` but makes `create_branch`
raise there. -/
theorem C2_expected_failures_flag_and_preserve_witness :
    checkout_branch repoDev "nope" =
      (false,
       "Error: Branch " ++ squote ++ "nope" ++ squote ++ " not found",
       repoDev) ∧
    create_commit repoGhost 1 "x" =
      (false,
       "Error: Current branch " ++ squote ++ "ghost" ++ squote
         ++ " not found", repoGhost) ∧
    create_branch repoGhost "feature2" "#9c27b0" = none := by
  have h := C2_expected_failures_flag_and_preserve
  exact ⟨h.1 repoDev "nope" (by decide),
    h.2.2.2.1 repoGhost 1 "x" (by decide),
    h.2.2.2.2.2.1 repoGhost "feature2" "#9c27b0" (by decide) (by decide)⟩

/-- A persisted document whose `current_branch` names no branch but
which does carry the `head` key `load_from_file` reads. -/
def ghostDoc : SavedDoc :=
  { commits := [("C0",
      { id := "C0", message := "Initial commit", timestamp := 0 })],
    branches := [("master",
      { name := "master", head := "C0", color := "#2196f3" })],
    current_branch := "ghost",
    head := some "C0" }

/-- The repository `load_from_file` reconstructs from `ghostDoc`. -/
def ghostRepo : GitRepository :=
  { commits := ghostDoc.commits,
    branches := ghostDoc.branches,
    current_branch := "ghost",
    head := some "C0" }

/-- Counterexample to claim C3 as stated: `load_from_file` validates
nothing — loading `ghostDoc` succeeds and returns a repository whose
`current_branch` is not a key of its `branches`, violating the
invariant the claim says every operation (load included) preserves. -/
theorem C3_counterexample :
    load_from_file ghostDoc = some ghostRepo ∧
    dictGet ghostRepo.branches ghostRepo.current_branch = none := by
  exact ⟨rfl, by decide⟩

/-- Claim C3 as amended: every state reachable through the in-memory
operations keeps `current_branch` a key of `branches`; but
`load_from_file` performs no validation of the loaded
`current_branch` — whenever the document carries a `head` key it
returns a repository taking `current_branch` verbatim from the
document, whether or not it names a loaded branch. -/
theorem C3_current_branch_invariant :
    (∀ r, Reachable r → (dictGet r.branches r.current_branch).isSome) ∧
    (∀ doc h0, doc.head = some h0 →
      load_from_file doc =
        some { commits := doc.commits, branches := doc.branches,
               current_branch := doc.current_branch,
               head := some h0 }) := by
  constructor
  · exact fun r h => reachable_current_isSome r h
  · intro doc h0 hh
    simp [load_from_file, hh]

/-- Witness for the amended C3: the reachable state `repoDiv` satisfies
the invariant, and loading `ghostDoc` succeeds unvalidated. -/
theorem C3_current_branch_invariant_witness :
    (dictGet repoDiv.branches repoDiv.current_branch).isSome ∧
    load_from_file ghostDoc = some ghostRepo := by
  have h := C3_current_branch_invariant
  exact ⟨h.1 repoDiv reachable_repoDiv, h.2 ghostDoc "C0" rfl⟩

/-- Claim C6: with the source branch existing and the current branch
resolving (the claim's "the current branch's head" presupposes the
latter; C2 treats its failure): equal heads make `merge_branches` a
success that changes nothing — so repeating it is again a no-op and
the commit count cannot change; distinct heads create a merge commit
with the current head as first parent, the source head as second
parent and the generated message, insert it, and advance only the
current branch's head to it, the source branch's entry staying exactly
as it was. -/
theorem C6_merge_behavior (r : GitRepository) (now later : Nat)
    (src : String) (sb tb : GitBranch)
    (hsrc : dictGet r.branches src = some sb)
    (htgt : dictGet r.branches r.current_branch = some tb) :
    (tb.head = sb.head →
      merge_branches r now src =
        some (true, "Already up to date. Nothing to merge.", r) ∧
      merge_branches r later src =
        some (true, "Already up to date. Nothing to merge.", r)) ∧
    (tb.head ≠ sb.head →
      merge_branches r now src =
        some (true,
          "Merged " ++ squote ++ src ++ squote ++ " into " ++ squote
            ++ r.current_branch ++ squote,
          { r with
              commits := dictInsert r.commits
                ("C" ++ toString r.commits.length)
                { id := "C" ++ toString r.commits.length,
                  message := "Merge branch " ++ squote ++ src ++ squote
                    ++ " into " ++ r.current_branch,
                  parent := some tb.head,
                  second_parent := some sb.head,
                  timestamp := now },
              branches := dictInsert r.branches r.current_branch
                { tb with
                    head := "C" ++ toString r.commits.length } }) ∧
      src ≠ r.current_branch ∧
      dictGet (dictInsert r.branches r.current_branch
          { tb with head := "C" ++ toString r.commits.length }) src =
        some sb ∧
      dictGet (dictInsert r.branches r.current_branch
          { tb with head := "C" ++ toString r.commits.length })
          r.current_branch =
        some { tb with head := "C" ++ toString r.commits.length } ∧
      (∀ n, n ≠ r.current_branch →
        dictGet (dictInsert r.branches r.current_branch
            { tb with head := "C" ++ toString r.commits.length }) n =
          dictGet r.branches n) ∧
      dictGet (dictInsert r.commits ("C" ++ toString r.commits.length)
          { id := "C" ++ toString r.commits.length,
            message := "Merge branch " ++ squote ++ src ++ squote
              ++ " into " ++ r.current_branch,
            parent := some tb.head, second_parent := some sb.head,
            timestamp := now })
          ("C" ++ toString r.commits.length) =
        some { id := "C" ++ toString r.commits.length,
               message := "Merge branch " ++ squote ++ src ++ squote
                 ++ " into " ++ r.current_branch,
               parent := some tb.head, second_parent := some sb.head,
               timestamp := now }) := by
  constructor
  · intro hh
    exact ⟨merge_branches_of_up_to_date r now src sb tb hsrc htgt hh,
      merge_branches_of_up_to_date r later src sb tb hsrc htgt hh⟩
  · intro hh
    have hne : src ≠ r.current_branch := by
      intro hx
      rw [hx, htgt] at hsrc
      injection hsrc with h2
      subst h2
      exact hh rfl
    refine ⟨merge_branches_of_diverged r now src sb tb hsrc htgt hh, hne,
      ?_, dictGet_insert_self _ _ _, ?_, dictGet_insert_self _ _ _⟩
    · rw [dictGet_insert_ne _ _ _ _ hne]
      exact hsrc
    · intro n hn
      exact dictGet_insert_ne _ _ _ _ hn

/-- Witness for C6 on `repoDiv` (`master` at `C1`, `dev` at `C0`):
merging `dev` creates the two-parent commit `C2` and moves only
`master`; merging `master` into itself is the no-op success. -/
theorem C6_merge_behavior_witness :
    merge_branches repoDiv 2 "dev" =
      some (true,
        "Merged " ++ squote ++ "dev" ++ squote ++ " into " ++ squote
          ++ "master" ++ squote,
        { repoDiv with
            commits := dictInsert repoDiv.commits "C2"
              { id := "C2",
                message := "Merge branch " ++ squote ++ "dev" ++ squote
                  ++ " into master",
                parent := some "C1", second_parent := some "C0",
                timestamp := 2 },
            branches := dictInsert repoDiv.branches "master"
              { name := "master", head := "C2",
                color := "#2196f3" } }) ∧
    merge_branches repoDiv 3 "master" =
      some (true, "Already up to date. Nothing to merge.", repoDiv) := by
  have h := C6_merge_behavior repoDiv 2 2 "dev"
    { name := "dev", head := "C0", color := "#4caf50" }
    { name := "master", head := "C1", color := "#2196f3" }
    (by decide) (by decide)
  have h2 := C6_merge_behavior repoDiv 3 3 "master"
    { name := "master", head := "C1", color := "#2196f3" }
    { name := "master", head := "C1", color := "#2196f3" }
    (by decide) (by decide)
  exact ⟨(h.2 (by decide)).1, (h2.1 rfl).1⟩

/-- Claim C9: in every state reachable through the in-memory
operations, every branch's head is a key of the `commits` mapping (the
operations only ever point a head at an existing or just-inserted
commit). -/
theorem C9_branch_heads_are_commits (r : GitRepository)
    (h : Reachable r) :
    ∀ n b, dictGet r.branches n = some b →
      (dictGet r.commits b.head).isSome :=
  reachable_heads_exist r h

/-- Witness for C9 at the reachable state `repoDiv`: `master`'s head
`C1` is a key of its commits. -/
theorem C9_branch_heads_are_commits_witness :
    (dictGet repoDiv.commits "C1").isSome :=
  C9_branch_heads_are_commits repoDiv reachable_repoDiv "master"
    { name := "master", head := "C1", color := "#2196f3" } (by decide)

/-- The state reached by `branch b`, `checkout b`, `commit "work"`,
`checkout master`, `merge b` from a fresh repository: `C1` ("work")
lives only on `b`, and `C2` is the merge commit with first parent `C0`
and second parent `C1`. -/
def repoFeat : GitRepository :=
  { commits := [("C0",
      { id := "C0", message := "Initial commit", timestamp := 0 }),
      ("C1", { id := "C1", message := "work", parent := some "C0",
               timestamp := 1 }),
      ("C2",
       { id := "C2",
         message := "Merge branch " ++ squote ++ "b" ++ squote
           ++ " into master",
         parent := some "C0", second_parent := some "C1",
         timestamp := 2 })],
    branches := [("master",
      { name := "master", head := "C2", color := "#2196f3" }),
      ("b", { name := "b", head := "C1", color := "#4caf50" })],
    current_branch := "master" }

/-- Claim C7: when the current branch resolves and the first-parent
walk from its head revisits no id, `get_commit_log` returns exactly
the rendered records of the commits along the first-parent chain
`chainIds` — one record per chain commit, consecutive chain entries
linked by `parent` and never by `second_parent`, so commits outside
that chain (history unique to merged-in branches) are not emitted.
The embedding of `get_commit_log` is a pure function of the state, so
the state is unchanged by construction. -/
theorem C7_log_walks_first_parents_only (r : GitRepository)
    (b : GitBranch)
    (hb : dictGet r.branches r.current_branch = some b)
    (hacyclic :
      (chainIds r.commits (r.commits.length + 1) (some b.head)).Nodup) :
    logLoop r.commits (r.commits.length + 1) (some b.head) =
      some ((chainIds r.commits (r.commits.length + 1)
        (some b.head)).filterMap (fun k => dictGet r.commits k)) ∧
    get_commit_log r (r.commits.length + 1) =
      some (renderLog ((chainIds r.commits (r.commits.length + 1)
        (some b.head)).filterMap (fun k => dictGet r.commits k))) ∧
    List.Chain'
      (fun a a' => ∃ c, dictGet r.commits a = some c ∧
        c.parent = some a')
      (chainIds r.commits (r.commits.length + 1) (some b.head)) := by
  have hs := logLoop_isSome_of_nodup r.commits (some b.head) hacyclic
  rcases Option.isSome_iff_exists.mp hs with ⟨cs, hcs⟩
  have heq := logLoop_eq_filterMap r.commits (r.commits.length + 1)
    (some b.head) cs hcs
  refine ⟨by rw [hcs, heq], ?_, chainIds_chain' r.commits _ _⟩
  simp only [get_commit_log, hb]
  rw [hcs, heq]
  rfl

/-- Witness for C7 on the merged state `repoFeat`: the walk from
`master`'s head `C2` visits only `C2` and `C0`; the commit `C1`,
reachable only through the `second_parent` link, is not emitted. -/
theorem C7_log_walks_first_parents_only_witness :
    logLoop repoFeat.commits 4 (some "C2") =
      some ((chainIds repoFeat.commits 4 (some "C2")).filterMap
        (fun k => dictGet repoFeat.commits k)) ∧
    chainIds repoFeat.commits 4 (some "C2") = ["C2", "C0"] := by
  have h := C7_log_walks_first_parents_only repoFeat
    { name := "master", head := "C2", color := "#2196f3" }
    (by decide) (by decide)
  exact ⟨h.1, by decide⟩

/-- A state with a dangling parent link: the only commit's parent id
`missing` is not a key of `commits`. -/
def repoDangling : GitRepository :=
  { commits := [("C0",
      { id := "C0", message := "orphan tip", parent := some "missing",
        timestamp := 0 })],
    branches := [("master",
      { name := "master", head := "C0", color := "#2196f3" })],
    current_branch := "master" }

/-- Claim C10: when the first-parent id sequence from the current head
revisits no id, the log loop finishes within `|commits| + 1`
iterations and `get_commit_log` returns a result — including on states
with dangling parent ids, since a parent id that is not a key of
`commits` stops the walk silently (truncating the log) rather than
raising or looping. -/
theorem C10_log_terminates_and_truncates (r : GitRepository)
    (b : GitBranch)
    (hb : dictGet r.branches r.current_branch = some b)
    (hacyclic :
      (chainIds r.commits (r.commits.length + 1) (some b.head)).Nodup) :
    (get_commit_log r (r.commits.length + 1)).isSome ∧
    (∀ fuel cid, dictGet r.commits cid = none →
      logLoop r.commits (fuel + 1) (some cid) = some []) := by
  constructor
  · have hs := logLoop_isSome_of_nodup r.commits (some b.head) hacyclic
    rcases Option.isSome_iff_exists.mp hs with ⟨cs, hcs⟩
    simp [get_commit_log, hb, hcs]
  · intro fuel cid hc
    by_cases hempty : cid = "" <;> simp [logLoop, hempty, hc]

/-- Witness for C10 on `repoDangling`: the log returns (truncated at
the dangling parent), and the walk from the missing id stops with no
records. -/
theorem C10_log_terminates_and_truncates_witness :
    (get_commit_log repoDangling 2).isSome ∧
    logLoop repoDangling.commits 1 (some "missing") = some [] := by
  have h := C10_log_terminates_and_truncates repoDangling
    { name := "master", head := "C0", color := "#2196f3" }
    (by decide) (by decide)
  exact ⟨h.1, h.2 0 "missing" (by decide)⟩
